import Mathlib

/-!
# Matrix-matrix multiplication (`mm_mult_serial.cpp`): embedding and properties

The program multiplies an `l × m` matrix `A` by an `m × n` matrix `B` into an
`l × n` matrix `C`.  All three live in flat buffers `a`, `b`, `c` addressed
through the macros `A(i,j) = *(a+i*dim_m+j)`, `B(i,j) = *(b+i*dim_n+j)` and
`C(i,j) = *(c+i*dim_n+j)`.

Embedding conventions.

* A buffer is a `List α`; the element type `α` stands for `float`.  The
  kernel only uses `0.0`, `+` and `*`, so it is written over any type with
  `Zero`, `Add` and `Mul`.  Theorems stated over exact arithmetic ask for a
  `Semiring`; the zero and identity properties ask only for the laws they
  use, which finite values satisfy.  `Fp` adds the infinities and NaN of
  IEEE-754 to exact finite values and shows where those laws stop.
* Every dereference is bounds checked: an access outside the buffer is the
  error `Fault.bounds` (undefined behaviour in the source).
* `mm_mult` is the multiply loop of `main` with the `int` variables read as
  natural numbers.  `mm_mult_int` is the same loop with every `int` product
  checked against `INT_MAX`; an overflowing product is `Fault.overflow`.
* The loop state `Mem` carries the output buffer together with the log of
  the stores made so far, in program order.
-/

namespace MmMult

/-! ## Data model -/

/-- Ways in which the source leaves defined behaviour. -/
inductive Fault where
  | bounds
  | overflow
deriving DecidableEq, Repr

/-- State threaded through the multiply loop: the output buffer `c` and the
log of stores `(offset, value)` made to it so far, oldest first. -/
structure Mem (α : Type) where
  c : List α
  stores : List (Nat × α)
deriving DecidableEq, Repr

/-- Largest value of a 32-bit `int`. -/
def INT_MAX : Nat := 2147483647

/-! ## The multiply loop, `int` read as natural numbers -/

section kernel
variable {α : Type}

/-- Checked dereference `*(p + off)`. -/
def deref (p : List α) (off : Nat) : Except Fault α :=
  match p[off]? with
  | some v => .ok v
  | none => .error .bounds

/-- Read through the macro: `A(i,j)` is `*(a+i*dim_m+j)`. -/
def A (a : List α) (dim_m i j : Nat) : Except Fault α := deref a (i * dim_m + j)

/-- Read through the macro: `B(i,j)` is `*(b+i*dim_n+j)`. -/
def B (b : List α) (dim_n i j : Nat) : Except Fault α := deref b (i * dim_n + j)

/-- Checked store `*(c + off) = v`, recorded in the log. -/
def assign (s : Mem α) (off : Nat) (v : α) : Except Fault (Mem α) :=
  if off < s.c.length then
    .ok { c := s.c.set off v, stores := s.stores ++ [(off, v)] }
  else .error .bounds

/-- Write through the macro: `C(i,j) = v` is `*(c+i*dim_n+j) = v`. -/
def C (s : Mem α) (dim_n i j : Nat) (v : α) : Except Fault (Mem α) :=
  assign s (i * dim_n + j) v

variable [Zero α] [Add α] [Mul α]

/-- Inner loop: `dot_prod = 0.0; for (k=0;k<dim_m;k++) dot_prod += A(i,k)*B(k,j);`
returning the final `dot_prod`. -/
def dot_loop (a b : List α) (dim_m dim_n i j : Nat) : Except Fault α :=
  (List.range dim_m).foldlM (fun dot_prod k => do
    let x ← A a dim_m i k
    let y ← B b dim_n k j
    pure (dot_prod + x * y)) 0

/-- Middle loop: `for (j=0;j<dim_n;j++) { <inner loop>; C(i,j) = dot_prod; }`. -/
def col_loop (a b : List α) (dim_m dim_n i : Nat) (s : Mem α) : Except Fault (Mem α) :=
  (List.range dim_n).foldlM (fun s j => do
    let dot_prod ← dot_loop a b dim_m dim_n i j
    C s dim_n i j dot_prod) s

/-- Outer loop `for (i=0;i<dim_l;i++) { ... }` of `main`, started on the
output buffer `c` with an empty store log. -/
def mm_mult (a b c : List α) (dim_l dim_m dim_n : Nat) : Except Fault (Mem α) :=
  (List.range dim_l).foldlM (fun s i => col_loop a b dim_m dim_n i s)
    { c := c, stores := [] }

/-! ## The multiply loop with 32-bit `int` products -/

/-- Product of two non-negative `int` values; overflow is a fault. -/
def imul (x y : Nat) : Except Fault Nat :=
  if x * y ≤ INT_MAX then .ok (x * y) else .error .overflow

/-- Macro `A(i,j)` with the `int` product `i*dim_m` checked. -/
def A_int (a : List α) (dim_m i j : Nat) : Except Fault α := do
  let p ← imul i dim_m
  deref a (p + j)

/-- Macro `B(i,j)` with the `int` product `i*dim_n` checked. -/
def B_int (b : List α) (dim_n i j : Nat) : Except Fault α := do
  let p ← imul i dim_n
  deref b (p + j)

/-- Macro `C(i,j) = v` with the `int` product `i*dim_n` checked. -/
def C_int (s : Mem α) (dim_n i j : Nat) (v : α) : Except Fault (Mem α) := do
  let p ← imul i dim_n
  assign s (p + j) v

/-- Inner loop over `A_int` and `B_int`. -/
def dot_loop_int (a b : List α) (dim_m dim_n i j : Nat) : Except Fault α :=
  (List.range dim_m).foldlM (fun dot_prod k => do
    let x ← A_int a dim_m i k
    let y ← B_int b dim_n k j
    pure (dot_prod + x * y)) 0

/-- Middle loop over `dot_loop_int` and `C_int`. -/
def col_loop_int (a b : List α) (dim_m dim_n i : Nat) (s : Mem α) : Except Fault (Mem α) :=
  (List.range dim_n).foldlM (fun s j => do
    let dot_prod ← dot_loop_int a b dim_m dim_n i j
    C_int s dim_n i j dot_prod) s

/-- Outer loop of `main` with checked `int` products. -/
def mm_mult_int (a b c : List α) (dim_l dim_m dim_n : Nat) : Except Fault (Mem α) :=
  (List.range dim_l).foldlM (fun s i => col_loop_int a b dim_m dim_n i s)
    { c := c, stores := [] }

/-! ## Closed forms of the values computed by the loop (used in the proofs) -/

/-- Final value of the accumulator `dot_prod` for cell `(i,j)`: starting from
`0`, the products `a[i*dim_m+k] * b[k*dim_n+j]` are added for `k = 0, 1, …,
dim_m-1` in that order. -/
def dot_prod (a b : List α) (dim_m dim_n i j : Nat) : α :=
  (List.range dim_m).foldl
    (fun acc k => acc + a.getD (i * dim_m + k) 0 * b.getD (k * dim_n + j) 0) 0

/-- Value the loop stores at offset `o` of `c`: the accumulator of the cell in
row `o / dim_n`, column `o % dim_n`. -/
def cell (a b : List α) (dim_m dim_n o : Nat) : α :=
  dot_prod a b dim_m dim_n (o / dim_n) (o % dim_n)

/-- Loop state once the first `t` cells have been stored. -/
def after (a b c : List α) (dim_m dim_n t : Nat) : Mem α :=
  { c := (List.range t).map (cell a b dim_m dim_n) ++ c.drop t,
    stores := (List.range t).map (fun o => (o, cell a b dim_m dim_n o)) }

end kernel

/-! ## Command line -/

/-- Termination through `exit(status)` after writing the line `out` to
standard output. -/
structure Exit where
  status : Nat
  out : String
deriving DecidableEq, Repr

/-- Exit taken on a wrong number of command line parameters. -/
def usage_exit : Exit :=
  { status := 1, out := "usage:  mm_mult_serial [l_dimension] <m_dimension n_dimmension>" }

/-- Exit taken on a dimension that is not positive. -/
def dim_exit : Exit :=
  { status := 1, out := "Error: number of rows and/or columns must be greater than 0" }

/-- Routine `get_index_size`.  The argument vector is a list, `argc` is its
length and `argv[0]` is the program name; `atoi` is the C library routine.
The three stored dimensions are returned in the order `(dim_l, dim_m, dim_n)`. -/
def get_index_size (atoi : String → Int) (argv : List String) :
    Except Exit (Int × Int × Int) :=
  let argc := argv.length
  if argc ≠ 2 ∧ argc ≠ 4 then .error usage_exit
  else
    let dims : Int × Int × Int :=
      if argc = 2 then
        (atoi (argv.getD 1 ""), atoi (argv.getD 1 ""), atoi (argv.getD 1 ""))
      else
        (atoi (argv.getD 1 ""), atoi (argv.getD 2 ""), atoi (argv.getD 3 ""))
    if dims.1 ≤ 0 ∨ dims.2.2 ≤ 0 ∨ dims.2.1 ≤ 0 then .error dim_exit
    else .ok dims

/-! ## The program -/

/-- Observable steps of a run of `main`. -/
inductive Event where
  | out (line : String)
  | alloc (count : Nat)
  | time
deriving DecidableEq, Repr

/-- How a run of `main` ends: `exit(status)`, a normal return with the final
contents of the three buffers, or undefined behaviour. -/
inductive Result (α : Type) where
  | exit (status : Nat)
  | done (a b c : List α)
  | fault (f : Fault)
deriving DecidableEq, Repr

/-- A run of `main`: what it did, in order, and how it ended. -/
structure Run (α : Type) where
  events : List Event
  result : Result α
deriving DecidableEq, Repr

/-- What `main` takes from outside the program: the library routine `atoi`,
whether the `t`-th `new (nothrow)` request is served (`heap t`), the initial
content `junk t o` of cell `o` of the `t`-th buffer, and the value
`drand t` of the `t`-th `drand48()*MAX_VALUE` after `srand48(SEED)`. -/
structure Env (α : Type) where
  atoi : String → Int
  heap : Nat → Bool
  junk : Nat → Nat → α
  drand : Nat → α

section program
variable {α : Type}

/-- Routine `fill_matrix`: `array[i*dim_n+j] = drand48()*MAX_VALUE` for `i` in
`[0,dim_m)` and `j` in `[0,dim_n)`; `t` counts the calls of `drand48` made so far. -/
def fill_matrix (drand : Nat → α) (array : List α) (dim_m dim_n t : Nat) :
    Except Fault (List α × Nat) :=
  (List.range dim_m).foldlM (fun s i =>
    (List.range dim_n).foldlM (fun s j => do
      let p ← imul i dim_n
      if p + j < s.1.length then pure (s.1.set (p + j) (drand s.2), s.2 + 1)
      else throw Fault.bounds) s) (array, t)

/-- Buffer returned by the `t`-th `new (nothrow) float[count]`. -/
def new_float (env : Env α) (t count : Nat) : List α :=
  (List.range count).map (env.junk t)

variable [Zero α] [Add α] [Mul α]

/-- Part of `main` after the three buffers were obtained: fill `a` and `b`,
run the multiply loop, write the blank line and the time line.  The blocks
under `if (DEBUG)` are not embedded, `DEBUG` being `false`. -/
def compute (env : Env α) (dim_l dim_m dim_n : Nat) (a b c : List α) : Run α :=
  match fill_matrix env.drand a dim_l dim_m 0 with
  | .error f => { events := [], result := .fault f }
  | .ok (a, t) =>
    match fill_matrix env.drand b dim_m dim_n t with
    | .error f => { events := [], result := .fault f }
    | .ok (b, _) =>
      match mm_mult_int a b c dim_l dim_m dim_n with
      | .error f => { events := [], result := .fault f }
      | .ok s => { events := [.out "", .time], result := .done a b s.c }

/-- Routine `main`.  The three `new (nothrow) float[...]` requests are made in
the order `a`, `b`, `c`, each after its `int` product; the null test follows
the third. -/
def main (env : Env α) (argv : List String) : Run α :=
  match get_index_size env.atoi argv with
  | .error e => { events := [.out e.out], result := .exit e.status }
  | .ok (dim_l, dim_m, dim_n) =>
    match imul dim_l.toNat dim_m.toNat with
    | .error f => { events := [], result := .fault f }
    | .ok lm =>
      match imul dim_m.toNat dim_n.toNat with
      | .error f => { events := [.alloc lm], result := .fault f }
      | .ok mn =>
        match imul dim_l.toNat dim_n.toNat with
        | .error f => { events := [.alloc lm, .alloc mn], result := .fault f }
        | .ok ln =>
          let allocs := [Event.alloc lm, Event.alloc mn, Event.alloc ln]
          if env.heap 0 && env.heap 1 && env.heap 2 then
            let r := compute env dim_l.toNat dim_m.toNat dim_n.toNat
              (new_float env 0 lm) (new_float env 1 mn) (new_float env 2 ln)
            { events := allocs ++ r.events, result := r.result }
          else
            { events := allocs ++ [.out "ERROR:  Insufficient Memory"], result := .exit 1 }

end program

/-! ## Single-precision values with infinities and NaN -/

/-- Values of `float` as far as the special values go: a finite value (kept
exact, as an integer), an infinity with its sign (`neg` for the negative one),
or NaN.  Rounding and the sign of zero are left out. -/
inductive Fp where
  | fin (x : Int)
  | inf (neg : Bool)
  | nan
deriving DecidableEq, Repr

/-- Sum of two `float` values under IEEE-754: NaN propagates and infinities of
opposite sign add up to NaN. -/
def Fp.add : Fp → Fp → Fp
  | .nan, _ => .nan
  | _, .nan => .nan
  | .fin x, .fin y => .fin (x + y)
  | .fin _, .inf s => .inf s
  | .inf s, .fin _ => .inf s
  | .inf s, .inf t => if s = t then .inf s else .nan

/-- Product of two `float` values under IEEE-754: NaN propagates and zero times
an infinity is NaN. -/
def Fp.mul : Fp → Fp → Fp
  | .nan, _ => .nan
  | _, .nan => .nan
  | .fin x, .fin y => .fin (x * y)
  | .fin x, .inf s => if x = 0 then .nan else .inf (xor s (decide (x < 0)))
  | .inf s, .fin y => if y = 0 then .nan else .inf (xor s (decide (y < 0)))
  | .inf s, .inf t => .inf (xor s t)

instance : Zero Fp := ⟨.fin 0⟩

instance : One Fp := ⟨.fin 1⟩

instance : Add Fp := ⟨Fp.add⟩

instance : Mul Fp := ⟨Fp.mul⟩

/-! ## Sample inputs -/

/-- Library routine `atoi` on the few strings used in the sample runs. -/
def atoi_sample (s : String) : Int :=
  if s = "2" then 2 else if s = "3" then 3 else if s = "4" then 4 else 0

/-- Sample environment: every allocation is served, fresh cells hold `7`, the
`t`-th random value is `t`. -/
def env_sample : Env Int :=
  { atoi := atoi_sample, heap := fun _ => true, junk := fun _ _ => 7, drand := fun t => t }

/-! ## Counted loops -/

section loops
variable {ε σ : Type}

/-- One more iteration of a counted loop runs after the shorter loop. -/
theorem foldlM_range_succ (f : σ → Nat → Except ε σ) (n : Nat) (s : σ) :
    (List.range (n + 1)).foldlM f s = (List.range n).foldlM f s >>= fun t => f t n := by
  rw [List.range_succ, List.foldlM_append]
  simp

/-- Loop invariant rule: if the body takes `g k` to `g (k+1)` at every index
below `n`, the loop takes `g 0` to `g n`. -/
theorem foldlM_range_inv (f : σ → Nat → Except ε σ) (g : Nat → σ) (n : Nat)
    (h : ∀ k, k < n → f (g k) k = .ok (g (k + 1))) :
    (List.range n).foldlM f (g 0) = .ok (g n) := by
  induction n with
  | zero => rfl
  | succ n ih =>
    rw [foldlM_range_succ, ih (fun k hk => h k (Nat.lt_succ_of_lt hk))]
    exact h n (Nat.lt_succ_self n)

end loops

/-! ## The loop computes `after` -/

section lemmas
variable {α : Type}

theorem deref_eq (p : List α) (off : Nat) (d : α) (h : off < p.length) :
    deref p off = .ok (p.getD off d) := by
  simp [deref, List.getElem?_eq_getElem h, List.getD_eq_getElem _ _ h]

theorem set_prefix (f : Nat → α) (c : List α) (t : Nat) (ht : t < c.length) :
    ((List.range t).map f ++ c.drop t).set t (f t)
      = (List.range (t + 1)).map f ++ c.drop (t + 1) := by
  rw [List.set_append_right _ _ (by simp)]
  simp only [List.length_map, List.length_range, Nat.sub_self, List.range_succ, List.map_append,
    List.map_cons, List.map_nil, List.append_assoc, List.singleton_append]
  rw [List.drop_eq_getElem_cons ht, List.set_cons_zero]

theorem row_bound {l m i k : Nat} (hi : i < l) (hk : k < m) : i * m + k < l * m :=
  calc i * m + k < i * m + m := by omega
    _ = (i + 1) * m := (Nat.succ_mul i m).symm
    _ ≤ l * m := Nat.mul_le_mul_right m hi

theorem div_row {n i j : Nat} (hj : j < n) : (i * n + j) / n = i := by
  have hn : 0 < n := by omega
  rw [Nat.mul_comm, Nat.mul_add_div hn, Nat.div_eq_of_lt hj, Nat.add_zero]

theorem mod_row {n i j : Nat} (hj : j < n) : (i * n + j) % n = j := by
  rw [Nat.mul_comm, Nat.mul_add_mod, Nat.mod_eq_of_lt hj]

variable [Zero α] [Add α] [Mul α]

theorem dot_loop_eq (a b : List α) (m n i j : Nat)
    (ha : ∀ k, k < m → i * m + k < a.length) (hb : ∀ k, k < m → k * n + j < b.length) :
    dot_loop a b m n i j = .ok (dot_prod a b m n i j) := by
  unfold dot_loop dot_prod
  exact foldlM_range_inv _
    (fun t => (List.range t).foldl
      (fun acc k => acc + a.getD (i * m + k) 0 * b.getD (k * n + j) 0) 0) m
    (by
      intro k hk
      simp only [A, B, deref_eq a _ 0 (ha k hk), deref_eq b _ 0 (hb k hk)]
      simp [List.range_succ]
      rfl)

theorem cell_eq (a b : List α) (m n i j : Nat) (hj : j < n) :
    cell a b m n (i * n + j) = dot_prod a b m n i j := by
  simp [cell, div_row hj, mod_row hj]

theorem assign_after (a b c : List α) (m n t : Nat) (hc : t < c.length) :
    assign (after a b c m n t) t (cell a b m n t) = .ok (after a b c m n (t + 1)) := by
  have hlen : t < ((List.range t).map (cell a b m n) ++ c.drop t).length := by
    simp; omega
  simp only [assign, after, hlen, if_true, set_prefix _ _ _ hc]
  simp [List.range_succ]

theorem col_loop_after (a b c : List α) (m n i : Nat)
    (ha : ∀ k, k < m → i * m + k < a.length)
    (hb : ∀ k j, k < m → j < n → k * n + j < b.length)
    (hc : i * n + n ≤ c.length) :
    col_loop a b m n i (after a b c m n (i * n)) = .ok (after a b c m n ((i + 1) * n)) := by
  rw [Nat.succ_mul]
  exact foldlM_range_inv _ (fun j => after a b c m n (i * n + j)) n
    (by
      intro j hj
      simp only [dot_loop_eq a b m n i j ha (fun k hk => hb k j hk hj), C]
      rw [← cell_eq a b m n i j hj]
      exact assign_after a b c m n (i * n + j) (by omega))

/-- Closed form of the loop: with buffers long enough for the three shapes it
returns, and its final state is `after` at `dim_l * dim_n` stores. -/
theorem mm_mult_after (a b c : List α) (l m n : Nat)
    (ha : l * m ≤ a.length) (hb : m * n ≤ b.length) (hc : l * n ≤ c.length) :
    mm_mult a b c l m n = .ok (after a b c m n (l * n)) := by
  have h := foldlM_range_inv (fun (s : Mem α) i => col_loop a b m n i s)
    (fun i => after a b c m n (i * n)) l
    (by
      intro i hi
      refine col_loop_after a b c m n i ?_ ?_ ?_
      · intro k hk
        exact Nat.lt_of_lt_of_le (row_bound hi hk) ha
      · intro k j hk hj
        exact Nat.lt_of_lt_of_le (row_bound hk hj) hb
      · calc i * n + n = (i + 1) * n := (Nat.succ_mul i n).symm
          _ ≤ l * n := Nat.mul_le_mul_right n hi
          _ ≤ c.length := hc)
  simpa [mm_mult, after] using h

end lemmas

/-! ## Reading the final state -/

section reading
variable {α : Type} [Zero α] [Add α] [Mul α]

theorem after_length (a b c : List α) (m n t : Nat) (ht : t ≤ c.length) :
    (after a b c m n t).c.length = c.length := by
  simp [after]; omega

theorem after_get (a b c : List α) (m n t o : Nat) (ho : o < t) :
    (after a b c m n t).c[o]? = some (cell a b m n o) := by
  simp only [after]
  rw [List.getElem?_append_left (by simpa using ho)]
  simp [List.getElem?_range ho]

theorem after_full (a b c : List α) (m n t : Nat) (ht : c.length = t) :
    (after a b c m n t).c = (List.range t).map (cell a b m n) := by
  simp [after, ← ht]

theorem after_stores_get (a b c : List α) (m n t o : Nat) (ho : o < t) :
    (after a b c m n t).stores[o]? = some (o, cell a b m n o) := by
  simp [after, List.getElem?_range ho]

theorem foldl_range_congr {β : Type} (f g : β → Nat → β) (m : Nat) (z : β)
    (h : ∀ k, k < m → ∀ x, f x k = g x k) :
    (List.range m).foldl f z = (List.range m).foldl g z := by
  induction m with
  | zero => rfl
  | succ m ih =>
    simp only [List.range_succ, List.foldl_append, List.foldl_cons, List.foldl_nil]
    rw [ih (fun k hk => h k (Nat.lt_succ_of_lt hk)), h m (Nat.lt_succ_self m)]

theorem dot_prod_congr (a b a' b' : List α) (m n i j : Nat)
    (hrow : ∀ k, k < m → a[i * m + k]? = a'[i * m + k]?)
    (hcol : ∀ k, k < m → b[k * n + j]? = b'[k * n + j]?) :
    dot_prod a b m n i j = dot_prod a' b' m n i j := by
  unfold dot_prod
  apply foldl_range_congr
  intro k hk x
  simp only [List.getD_eq_getElem?_getD, hrow k hk, hcol k hk]

end reading

section sums
variable {α : Type} [Semiring α]

theorem foldl_add_eq_sum (f : Nat → α) (m : Nat) :
    (List.range m).foldl (fun acc k => acc + f k) 0 = ∑ k in Finset.range m, f k := by
  induction m with
  | zero => simp
  | succ m ih =>
    simp only [List.range_succ, List.foldl_append, List.foldl_cons, List.foldl_nil, ih,
      Finset.sum_range_succ]

theorem dot_prod_eq_sum (a b : List α) (m n i j : Nat) :
    dot_prod a b m n i j
      = ∑ k in Finset.range m, a.getD (i * m + k) 0 * b.getD (k * n + j) 0 :=
  foldl_add_eq_sum _ m

end sums

/-! ## Products of products -/

section products
variable {α : Type} [Semiring α]

theorem getD_map_range (f : Nat → α) (N t : Nat) (ht : t < N) :
    ((List.range N).map f).getD t 0 = f t := by
  rw [List.getD_eq_getElem?_getD, List.getElem?_map, List.getElem?_range ht]
  rfl

/-- Row `i`, column `j` of `(A×B)×C` and of `A×(B×C)` agree, both inner
products being the buffers the loop leaves behind. -/
theorem dot_prod_assoc (a b c : List α) (l m n p i j : Nat) (hi : i < l) (hj : j < p) :
    dot_prod ((List.range (l * n)).map (cell a b m n)) c n p i j
      = dot_prod a ((List.range (m * p)).map (cell b c n p)) m p i j := by
  rw [dot_prod_eq_sum, dot_prod_eq_sum]
  have hL : ∀ k2 ∈ Finset.range n,
      ((List.range (l * n)).map (cell a b m n)).getD (i * n + k2) 0 * c.getD (k2 * p + j) 0
        = ∑ k1 in Finset.range m,
            a.getD (i * m + k1) 0 * b.getD (k1 * n + k2) 0 * c.getD (k2 * p + j) 0 := by
    intro k2 hk2
    have hk2' : k2 < n := Finset.mem_range.mp hk2
    rw [getD_map_range _ _ _ (row_bound hi hk2'), cell_eq a b m n i k2 hk2', dot_prod_eq_sum,
      Finset.sum_mul]
  have hR : ∀ k1 ∈ Finset.range m,
      a.getD (i * m + k1) 0 * ((List.range (m * p)).map (cell b c n p)).getD (k1 * p + j) 0
        = ∑ k2 in Finset.range n,
            a.getD (i * m + k1) 0 * b.getD (k1 * n + k2) 0 * c.getD (k2 * p + j) 0 := by
    intro k1 hk1
    have hk1' : k1 < m := Finset.mem_range.mp hk1
    rw [getD_map_range _ _ _ (row_bound hk1' hj), cell_eq b c n p k1 j hj, dot_prod_eq_sum,
      Finset.mul_sum]
    exact Finset.sum_congr rfl (fun k2 _ => (mul_assoc _ _ _).symm)
  rw [Finset.sum_congr rfl hL, Finset.sum_congr rfl hR, Finset.sum_comm]

end products

/-! ## Agreement of the two embeddings of the loop -/

section agreement
variable {α : Type}

theorem foldlM_range_congr {ε σ : Type} (f g : σ → Nat → Except ε σ) (n : Nat) (s : σ)
    (h : ∀ k, k < n → ∀ t, f t k = g t k) :
    (List.range n).foldlM f s = (List.range n).foldlM g s := by
  induction n with
  | zero => rfl
  | succ n ih =>
    rw [foldlM_range_succ, foldlM_range_succ, ih (fun k hk => h k (Nat.lt_succ_of_lt hk))]
    congr
    funext t
    exact h n (Nat.lt_succ_self n) t

theorem imul_eq {x y : Nat} (h : x * y ≤ INT_MAX) : imul x y = .ok (x * y) := by
  simp [imul, h]

theorem A_int_eq (a : List α) (m i k : Nat) (h : i * m ≤ INT_MAX) :
    A_int a m i k = A a m i k := by
  simp only [A_int, A, imul_eq h]
  rfl

theorem B_int_eq (b : List α) (n k j : Nat) (h : k * n ≤ INT_MAX) :
    B_int b n k j = B b n k j := by
  simp only [B_int, B, imul_eq h]
  rfl

theorem C_int_eq (s : Mem α) (n i j : Nat) (v : α) (h : i * n ≤ INT_MAX) :
    C_int s n i j v = C s n i j v := by
  simp only [C_int, C, imul_eq h]
  rfl

variable [Zero α] [Add α] [Mul α]

theorem dot_loop_int_eq (a b : List α) (m n i j : Nat) (hi : i * m ≤ INT_MAX)
    (hk : ∀ k, k < m → k * n ≤ INT_MAX) :
    dot_loop_int a b m n i j = dot_loop a b m n i j := by
  unfold dot_loop_int dot_loop
  apply foldlM_range_congr
  intro k hlt t
  rw [A_int_eq a m i k hi, B_int_eq b n k j (hk k hlt)]

theorem col_loop_int_eq (a b : List α) (m n i : Nat) (s : Mem α) (hi : i * m ≤ INT_MAX)
    (hin : i * n ≤ INT_MAX) (hk : ∀ k, k < m → k * n ≤ INT_MAX) :
    col_loop_int a b m n i s = col_loop a b m n i s := by
  unfold col_loop_int col_loop
  apply foldlM_range_congr
  intro j _ t
  rw [dot_loop_int_eq a b m n i j hi hk]
  congr
  funext v
  exact C_int_eq t n i j v hin

theorem mm_mult_int_eq (a b c : List α) (l m n : Nat)
    (hi : ∀ i, i < l → i * m ≤ INT_MAX ∧ i * n ≤ INT_MAX)
    (hk : ∀ k, k < m → k * n ≤ INT_MAX) :
    mm_mult_int a b c l m n = mm_mult a b c l m n := by
  unfold mm_mult_int mm_mult
  apply foldlM_range_congr
  intro i hlt t
  exact col_loop_int_eq a b m n i t (hi i hlt).1 (hi i hlt).2 hk

end agreement

/-! ## Zero and identity operands -/

section laws
variable {α : Type}

theorem getD_mem (p : List α) (t : Nat) (d : α) (h : t < p.length) : p.getD t d ∈ p := by
  rw [List.getD_eq_getElem _ _ h]
  exact List.getElem_mem h

theorem getD_zero [Zero α] (p : List α) (hp : ∀ x ∈ p, x = 0) (t : Nat) : p.getD t 0 = 0 := by
  rw [List.getD_eq_getElem?_getD]
  cases h : p[t]? with
  | none => rfl
  | some v => exact hp v (List.getElem?_mem h)

theorem foldl_range_const {β : Type} (f : β → Nat → β) (m : Nat) (z : β)
    (h : ∀ k, k < m → f z k = z) : (List.range m).foldl f z = z := by
  induction m with
  | zero => rfl
  | succ m ih =>
    simp only [List.range_succ, List.foldl_append, List.foldl_cons, List.foldl_nil]
    rw [ih (fun k hk => h k (Nat.lt_succ_of_lt hk))]
    exact h m (Nat.lt_succ_self m)

variable [Zero α] [Add α] [Mul α]

/-- The accumulator stays `0` when every step adds a product that leaves `0`
unchanged. -/
theorem dot_prod_eq_zero (a b : List α) (m n i j : Nat)
    (h : ∀ k, k < m → (0 : α) + a.getD (i * m + k) 0 * b.getD (k * n + j) 0 = 0) :
    dot_prod a b m n i j = 0 :=
  foldl_range_const _ m 0 h

/-- Against column `j` of the identity the accumulator is `0` up to step `j`
and the cell `a[i*m+j]` from then on. -/
theorem dot_prod_identity [One α] (a b : List α) (m i j : Nat) (hj : j < m)
    (hI : ∀ k, k < m → b.getD (k * m + j) 0 = if k = j then 1 else 0)
    (h0 : ∀ k, k < m → (0 : α) + a.getD (i * m + k) 0 * 0 = 0)
    (h1 : (0 : α) + a.getD (i * m + j) 0 * 1 = a.getD (i * m + j) 0)
    (h2 : ∀ k, k < m →
      a.getD (i * m + j) 0 + a.getD (i * m + k) 0 * 0 = a.getD (i * m + j) 0) :
    dot_prod a b m m i j = a.getD (i * m + j) 0 := by
  have key : ∀ t, t ≤ m →
      (List.range t).foldl
        (fun acc k => acc + a.getD (i * m + k) 0 * b.getD (k * m + j) 0) 0
        = if j < t then a.getD (i * m + j) 0 else 0 := by
    intro t
    induction t with
    | zero => intro _; rfl
    | succ t ih =>
      intro ht
      have hlt : t < m := ht
      simp only [List.range_succ, List.foldl_append, List.foldl_cons, List.foldl_nil]
      rw [ih (Nat.le_of_lt hlt), hI t hlt]
      rcases Nat.lt_trichotomy t j with h | h | h
      · rw [if_neg (by omega), if_neg (by omega), if_neg (by omega)]
        exact h0 t hlt
      · subst h
        rw [if_neg (by omega), if_pos rfl, if_pos (by omega)]
        exact h1
      · rw [if_pos (by omega), if_neg (by omega), if_pos (by omega)]
        exact h2 t hlt
  have := key m (Nat.le_refl m)
  rw [if_pos hj] at this
  exact this

end laws

section exact
variable {α : Type} [Semiring α]

/-- In exact arithmetic every value satisfies the laws asked of the operands of
the zero and identity properties. -/
theorem semiring_operand_laws (x y : α) :
    (0 : α) + 0 * x = 0 ∧ (0 : α) + x * 0 = 0 ∧ (0 : α) + x * 1 = x ∧ x + y * 0 = x := by
  simp

end exact

/-- In the `float` model every finite value satisfies the same laws. -/
theorem Fp.finite_operand_laws (x y : Int) :
    (0 : Fp) + 0 * Fp.fin x = 0 ∧ (0 : Fp) + Fp.fin x * 0 = 0 ∧
      (0 : Fp) + Fp.fin x * 1 = Fp.fin x ∧ Fp.fin x + Fp.fin y * 0 = Fp.fin x := by
  refine ⟨?_, ?_, ?_, ?_⟩
  · show Fp.fin (0 + 0 * x) = Fp.fin 0
    simp
  · show Fp.fin (0 + x * 0) = Fp.fin 0
    simp
  · show Fp.fin (0 + x * 1) = Fp.fin x
    simp
  · show Fp.fin (x + y * 0) = Fp.fin x
    simp

/-! ## Properties of the multiply loop -/

section claims
variable {α : Type}

/-- C1. For positive `l`, `m`, `n` and buffers `a`, `b`, `c` of lengths `l*m`,
`m*n`, `l*n`, the multiply loop returns; the final `c` has `l*n` cells; and for
`i < l`, `j < n` the cell at offset `i*n+j` is the sum over `k` in `[0,m)` of
`a[i*m+k] * b[k*n+j]`, both as the left-to-right accumulation from `0` and as
the finite sum of exact arithmetic. -/
theorem mm_mult_computes_product [Semiring α] (l m n : Nat) (a b c : List α)
    (_hl : 0 < l) (_hm : 0 < m) (_hn : 0 < n)
    (ha : a.length = l * m) (hb : b.length = m * n) (hc : c.length = l * n) :
    ∃ r, mm_mult a b c l m n = .ok r ∧ r.c.length = l * n ∧
      ∀ i j, i < l → j < n →
        r.c[i * n + j]? = some ((List.range m).foldl
          (fun acc k => acc + a.getD (i * m + k) 0 * b.getD (k * n + j) 0) 0) ∧
        r.c[i * n + j]? = some
          (∑ k in Finset.range m, a.getD (i * m + k) 0 * b.getD (k * n + j) 0) := by
  refine ⟨_, mm_mult_after a b c l m n ha.ge hb.ge hc.ge, ?_, ?_⟩
  · rw [after_length a b c m n (l * n) hc.ge, hc]
  · intro i j hi hj
    have h := after_get a b c m n (l * n) (i * n + j) (row_bound hi hj)
    rw [cell_eq a b m n i j hj] at h
    exact ⟨h, by rw [h, dot_prod_eq_sum]⟩

/-- C7, amended.  Zero property: for positive `l`, `m`, `n`, if every cell of
`a` is `0` and every cell `y` of `b` satisfies `0 + 0 * y = 0`, or every cell
of `b` is `0` and every cell `x` of `a` satisfies `0 + x * 0 = 0`, the multiply
loop returns and every cell of the final `c` is `0`.  The law holds of every
value in exact arithmetic and of every finite `float`; it fails for an
infinity or NaN. -/
theorem mm_mult_zero [Zero α] [Add α] [Mul α] (l m n : Nat) (a b c : List α)
    (_hl : 0 < l) (_hm : 0 < m) (hn : 0 < n)
    (ha : a.length = l * m) (hb : b.length = m * n) (hc : c.length = l * n)
    (hz : ((∀ x ∈ a, x = 0) ∧ ∀ y ∈ b, (0 : α) + 0 * y = 0) ∨
      ((∀ y ∈ b, y = 0) ∧ ∀ x ∈ a, (0 : α) + x * 0 = 0)) :
    ∃ r, mm_mult a b c l m n = .ok r ∧ r.c.length = l * n ∧ ∀ x ∈ r.c, x = 0 := by
  refine ⟨_, mm_mult_after a b c l m n ha.ge hb.ge hc.ge, ?_, ?_⟩
  · rw [after_length a b c m n (l * n) hc.ge, hc]
  · intro x hx
    rw [after_full a b c m n (l * n) hc, List.mem_map] at hx
    obtain ⟨o, ho, rfl⟩ := hx
    have ho' : o < l * n := List.mem_range.mp ho
    have hi : o / n < l := by
      rw [Nat.div_lt_iff_lt_mul hn]; exact ho'
    have hj : o % n < n := Nat.mod_lt o hn
    apply dot_prod_eq_zero
    intro k hk
    rcases hz with ⟨hzero, hlaw⟩ | ⟨hzero, hlaw⟩
    · rw [getD_zero a hzero]
      exact hlaw _ (getD_mem b _ 0 (hb ▸ row_bound hk hj))
    · rw [getD_zero b hzero]
      exact hlaw _ (getD_mem a _ 0 (ha ▸ row_bound hi hk))

/-- C5, amended.  Identity property: for positive `l`, `m`, an `l × m` buffer
`a` whose cells `x`, `y` satisfy `0 + x * 0 = 0`, `0 + x * 1 = x` and
`x + y * 0 = x`, and an `m × m` buffer `b` holding `1` at the offsets `k*m+k`
and `0` elsewhere, the multiply loop with dimensions `(l, m, m)` returns and
the final `c` equals `a`.  The laws hold of every value in exact arithmetic and
of every finite `float`; they fail for an infinity or NaN. -/
theorem mm_mult_identity [Zero α] [One α] [Add α] [Mul α] (l m : Nat) (a b c : List α)
    (_hl : 0 < l) (hm : 0 < m)
    (ha : a.length = l * m) (hb : b.length = m * m) (hc : c.length = l * m)
    (hI : ∀ k j, k < m → j < m → b[k * m + j]? = some (if k = j then 1 else 0))
    (h0 : ∀ x ∈ a, (0 : α) + x * 0 = 0) (h1 : ∀ x ∈ a, (0 : α) + x * 1 = x)
    (h2 : ∀ x ∈ a, ∀ y ∈ a, x + y * 0 = x) :
    ∃ r, mm_mult a b c l m m = .ok r ∧ r.c = a := by
  refine ⟨_, mm_mult_after a b c l m m ha.ge hb.ge hc.ge, ?_⟩
  rw [after_full a b c m m (l * m) hc]
  apply List.ext_getElem?
  intro o
  by_cases ho : o < l * m
  · have hj : o % m < m := Nat.mod_lt o hm
    have hi : o / m < l := by
      rw [Nat.div_lt_iff_lt_mul hm]; exact ho
    have hmem : ∀ k, k < m → a.getD (o / m * m + k) 0 ∈ a :=
      fun k hk => getD_mem a _ 0 (ha ▸ row_bound hi hk)
    have hcell : cell a b m m o = a.getD o 0 := by
      rw [cell, dot_prod_identity a b m (o / m) (o % m) hj
        (fun k hk => by rw [List.getD_eq_getElem?_getD, hI k (o % m) hk hj]; rfl)
        (fun k hk => h0 _ (hmem k hk)) (h1 _ (hmem _ hj))
        (fun k hk => h2 _ (hmem _ hj) _ (hmem k hk)), Nat.div_add_mod']
    rw [List.getElem?_map, List.getElem?_range ho, Option.map_some', hcell,
      List.getD_eq_getElem _ _ (by omega), List.getElem?_eq_getElem (by omega)]
  · rw [List.getElem?_eq_none (by simpa using ho), List.getElem?_eq_none (by omega)]

/-- C8. For positive `l`, `m`, `n` the multiply loop returns and its store log
has exactly `l*n` entries; the offsets stored to are `0, 1, …, l*n-1`, each
once; the `t`-th store writes offset `t` with the value the inner loop returns
for that cell after all its `m` iterations, which is the left-to-right sum over
the whole range `[0,m)`, and that value is what the final `c` holds there. -/
theorem mm_mult_stores [Zero α] [Add α] [Mul α] (l m n : Nat) (a b c : List α)
    (_hl : 0 < l) (_hm : 0 < m) (_hn : 0 < n)
    (ha : a.length = l * m) (hb : b.length = m * n) (hc : c.length = l * n) :
    ∃ r, mm_mult a b c l m n = .ok r ∧
      r.stores.length = l * n ∧
      r.stores.map Prod.fst = List.range (l * n) ∧
      (r.stores.map Prod.fst).Nodup ∧
      (∀ o, o ∈ r.stores.map Prod.fst ↔ o < l * n) ∧
      ∀ t, t < l * n → ∃ v,
        r.stores[t]? = some (t, v) ∧
        dot_loop a b m n (t / n) (t % n) = .ok v ∧
        v = (List.range m).foldl (fun acc k =>
          acc + a.getD (t / n * m + k) 0 * b.getD (k * n + t % n) 0) 0 ∧
        r.c[t]? = some v := by
  have hfst : (after a b c m n (l * n)).stores.map Prod.fst = List.range (l * n) := by
    simp [after, Function.comp_def]
  refine ⟨_, mm_mult_after a b c l m n ha.ge hb.ge hc.ge, ?_, hfst, ?_, ?_, ?_⟩
  · simp [after]
  · rw [hfst]; exact List.nodup_range _
  · intro o; rw [hfst]; exact List.mem_range
  · intro t ht
    have hn : 0 < n := Nat.pos_of_ne_zero (by rintro rfl; simp at ht)
    have hi : t / n < l := by
      rw [Nat.div_lt_iff_lt_mul hn]; exact ht
    have hj : t % n < n := Nat.mod_lt t hn
    refine ⟨cell a b m n t, after_stores_get a b c m n _ t ht, ?_, rfl,
      after_get a b c m n _ t ht⟩
    exact dot_loop_eq a b m n (t / n) (t % n)
      (fun k hk => ha ▸ row_bound hi hk) (fun k hk => hb ▸ row_bound hk hj)

/-- C9. Cell independence: for positive `l`, `m`, `n`, `i < l`, `j < n` and two
runs on buffers of the same dimensions whose `a` agree on row `i` and whose `b`
agree on column `j`, both runs return and hold the same value at offset
`i*n+j` of the final `c`, whatever the other cells of `a`, `b` and the initial
`c` are. -/
theorem mm_mult_cell_independent [Zero α] [Add α] [Mul α] (l m n i j : Nat)
    (a b c a' b' c' : List α)
    (_hl : 0 < l) (_hm : 0 < m) (_hn : 0 < n) (hi : i < l) (hj : j < n)
    (ha : a.length = l * m) (hb : b.length = m * n) (hc : c.length = l * n)
    (ha' : a'.length = l * m) (hb' : b'.length = m * n) (hc' : c'.length = l * n)
    (hrow : ∀ k, k < m → a[i * m + k]? = a'[i * m + k]?)
    (hcol : ∀ k, k < m → b[k * n + j]? = b'[k * n + j]?) :
    ∃ r r' v, mm_mult a b c l m n = .ok r ∧ mm_mult a' b' c' l m n = .ok r' ∧
      r.c[i * n + j]? = some v ∧ r'.c[i * n + j]? = some v := by
  refine ⟨_, _, _, mm_mult_after a b c l m n ha.ge hb.ge hc.ge,
    mm_mult_after a' b' c' l m n ha'.ge hb'.ge hc'.ge,
    after_get a b c m n _ _ (row_bound hi hj), ?_⟩
  rw [after_get a' b' c' m n _ _ (row_bound hi hj), cell_eq _ _ _ _ _ _ hj,
    cell_eq _ _ _ _ _ _ hj, dot_prod_congr a b a' b' m n i j hrow hcol]

/-- C10. Index safety: for positive `l`, `m`, `n` whose products `l*m`, `m*n`,
`l*n` fit a 32-bit `int`, and buffers of lengths `l*m`, `m*n`, `l*n`, every read
`A(i,k)` is at offset `i*m+k < l*m`, every read `B(k,j)` at offset
`k*n+j < m*n`, every write `C(i,j)` at offset `i*n+j < l*n`, each of these
checked accesses succeeds, and the loop with checked `int` products and bounds
returns, with the result of the loop over natural numbers. -/
theorem mm_mult_index_safe [Zero α] [Add α] [Mul α] (l m n : Nat) (a b c : List α)
    (_hl : 0 < l) (_hm : 0 < m) (_hn : 0 < n)
    (hlm : l * m ≤ INT_MAX) (hmn : m * n ≤ INT_MAX) (hln : l * n ≤ INT_MAX)
    (ha : a.length = l * m) (hb : b.length = m * n) (hc : c.length = l * n) :
    (∀ i k, i < l → k < m → i * m + k < l * m ∧ ∃ v, A_int a m i k = .ok v) ∧
    (∀ k j, k < m → j < n → k * n + j < m * n ∧ ∃ v, B_int b n k j = .ok v) ∧
    (∀ i j, i < l → j < n → i * n + j < l * n ∧
      ∀ (s : Mem α) v, s.c.length = l * n → ∃ s', C_int s n i j v = .ok s') ∧
    ∃ r, mm_mult_int a b c l m n = .ok r ∧ mm_mult a b c l m n = .ok r := by
  have hrow : ∀ {p q i : Nat}, p * q ≤ INT_MAX → i < p → i * q ≤ INT_MAX := by
    intro p q i hpq hi
    exact Nat.le_trans (Nat.mul_le_mul_right q (Nat.le_of_lt hi)) hpq
  refine ⟨?_, ?_, ?_, ?_⟩
  · intro i k hi hk
    refine ⟨row_bound hi hk, a.getD (i * m + k) 0, ?_⟩
    rw [A_int_eq a m i k (hrow hlm hi)]
    exact deref_eq a _ 0 (ha ▸ row_bound hi hk)
  · intro k j hk hj
    refine ⟨row_bound hk hj, b.getD (k * n + j) 0, ?_⟩
    rw [B_int_eq b n k j (hrow hmn hk)]
    exact deref_eq b _ 0 (hb ▸ row_bound hk hj)
  · intro i j hi hj
    refine ⟨row_bound hi hj, ?_⟩
    intro s v hs
    rw [C_int_eq s n i j v (hrow hln hi)]
    have : i * n + j < s.c.length := hs ▸ row_bound hi hj
    exact ⟨{ c := s.c.set (i * n + j) v, stores := s.stores ++ [(i * n + j, v)] },
      by simp only [C, assign, this, if_true]⟩
  · refine ⟨after a b c m n (l * n), ?_, mm_mult_after a b c l m n ha.ge hb.ge hc.ge⟩
    rw [mm_mult_int_eq a b c l m n (fun i hi => ⟨hrow hlm hi, hrow hln hi⟩)
      (fun k hk => hrow hmn hk)]
    exact mm_mult_after a b c l m n ha.ge hb.ge hc.ge

/-- C6. Associativity: for positive `l`, `m`, `n`, `p`, buffers `a` (`l × m`),
`b` (`m × n`), `c` (`n × p`) and any output buffers of the right lengths, the
four runs of the multiply loop return, and the loop applied to the computed
`A×B` and `C` leaves the same `l × p` buffer as the loop applied to `A` and the
computed `B×C` (exact arithmetic). -/
theorem mm_mult_assoc [Semiring α] (l m n p : Nat) (a b c o₁ o₂ o₃ o₄ : List α)
    (_hl : 0 < l) (_hm : 0 < m) (_hn : 0 < n) (hp : 0 < p)
    (ha : a.length = l * m) (hb : b.length = m * n) (hc : c.length = n * p)
    (h₁ : o₁.length = l * n) (h₂ : o₂.length = l * p)
    (h₃ : o₃.length = m * p) (h₄ : o₄.length = l * p) :
    ∃ ab ab_c bc a_bc,
      mm_mult a b o₁ l m n = .ok ab ∧ mm_mult ab.c c o₂ l n p = .ok ab_c ∧
      mm_mult b c o₃ m n p = .ok bc ∧ mm_mult a bc.c o₄ l m p = .ok a_bc ∧
      ab_c.c.length = l * p ∧ ab_c.c = a_bc.c := by
  have hab := mm_mult_after a b o₁ l m n ha.ge hb.ge h₁.ge
  have hbc := mm_mult_after b c o₃ m n p hb.ge hc.ge h₃.ge
  have habc : (after a b o₁ m n (l * n)).c.length = l * n := by
    rw [after_length a b o₁ m n (l * n) h₁.ge, h₁]
  have hbcc : (after b c o₃ n p (m * p)).c.length = m * p := by
    rw [after_length b c o₃ n p (m * p) h₃.ge, h₃]
  have h1 := mm_mult_after (after a b o₁ m n (l * n)).c c o₂ l n p habc.ge hc.ge h₂.ge
  have h2 := mm_mult_after a (after b c o₃ n p (m * p)).c o₄ l m p ha.ge hbcc.ge h₄.ge
  refine ⟨_, _, _, _, hab, h1, hbc, h2, ?_, ?_⟩
  · rw [after_length _ _ o₂ n p (l * p) h₂.ge, h₂]
  · rw [after_full _ _ o₂ n p (l * p) h₂, after_full _ _ o₄ m p (l * p) h₄,
      after_full a b o₁ m n (l * n) h₁, after_full b c o₃ n p (m * p) h₃]
    apply List.map_congr_left
    intro o ho
    have ho' : o < l * p := List.mem_range.mp ho
    have hi : o / p < l := by
      rw [Nat.div_lt_iff_lt_mul hp]; exact ho'
    exact dot_prod_assoc a b c l m n p (o / p) (o % p) hi (Nat.mod_lt o hp)

end claims

/-! ## Properties of the command line -/

section cli

theorem get_index_size_count (atoi : String → Int) (argv : List String)
    (h : argv.length ≠ 2 ∧ argv.length ≠ 4) :
    get_index_size atoi argv = .error usage_exit := by
  unfold get_index_size
  simp only [h, ne_eq, not_false_eq_true, and_self, if_true]

theorem get_index_size_one (atoi : String → Int) (prog x : String) :
    get_index_size atoi [prog, x]
      = if atoi x ≤ 0 then .error dim_exit else .ok (atoi x, atoi x, atoi x) := by
  unfold get_index_size
  by_cases h : atoi x ≤ 0 <;> simp [h]

theorem get_index_size_three (atoi : String → Int) (prog x y z : String) :
    get_index_size atoi [prog, x, y, z]
      = if atoi x ≤ 0 ∨ atoi z ≤ 0 ∨ atoi y ≤ 0 then .error dim_exit
        else .ok (atoi x, atoi y, atoi z) := by
  unfold get_index_size
  by_cases h : atoi x ≤ 0 ∨ atoi z ≤ 0 ∨ atoi y ≤ 0 <;> simp [h]

/-- Shape of the argument vector by its length. -/
theorem argv_cases (argv : List String) :
    (argv.length ≠ 2 ∧ argv.length ≠ 4) ∨ (∃ prog x, argv = [prog, x]) ∨
      ∃ prog x y z, argv = [prog, x, y, z] := by
  rcases argv with _ | ⟨p, _ | ⟨x, _ | ⟨y, _ | ⟨z, _ | ⟨w, t⟩⟩⟩⟩⟩
  · left; simp
  · left; simp
  · right; left; exact ⟨p, x, rfl⟩
  · left; simp
  · right; right; exact ⟨p, x, y, z, rfl⟩
  · left; simp only [List.length_cons]; omega

theorem get_index_size_error_iff (atoi : String → Int) (argv : List String) :
    (∃ e, get_index_size atoi argv = .error e) ↔
      ((argv.length ≠ 2 ∧ argv.length ≠ 4) ∨
        ∃ p, 1 ≤ p ∧ p < argv.length ∧ atoi (argv.getD p "") ≤ 0) := by
  rcases argv_cases argv with h | ⟨prog, x, rfl⟩ | ⟨prog, x, y, z, rfl⟩
  · rw [get_index_size_count atoi argv h]
    exact ⟨fun _ => Or.inl h, fun _ => ⟨_, rfl⟩⟩
  · rw [get_index_size_one]
    by_cases hx : atoi x ≤ 0
    · rw [if_pos hx]
      exact ⟨fun _ => Or.inr ⟨1, by simp, by simp, by simpa using hx⟩, fun _ => ⟨_, rfl⟩⟩
    · rw [if_neg hx]
      constructor
      · rintro ⟨e, he⟩; cases he
      · rintro (h | ⟨p, h1, h2, h3⟩)
        · simp at h
        · simp only [List.length_cons, List.length_nil] at h2
          have : p = 1 := by omega
          subst this
          exact absurd h3 hx
  · rw [get_index_size_three]
    by_cases hx : atoi x ≤ 0 ∨ atoi z ≤ 0 ∨ atoi y ≤ 0
    · rw [if_pos hx]
      refine ⟨fun _ => Or.inr ?_, fun _ => ⟨_, rfl⟩⟩
      rcases hx with hx | hx | hx
      · exact ⟨1, by simp, by simp, by simpa using hx⟩
      · exact ⟨3, by simp, by simp, by simpa using hx⟩
      · exact ⟨2, by simp, by simp, by simpa using hx⟩
    · rw [if_neg hx]
      constructor
      · rintro ⟨e, he⟩; cases he
      · rintro (h | ⟨p, h1, h2, h3⟩)
        · simp at h
        · simp only [List.length_cons, List.length_nil] at h2
          have : p = 1 ∨ p = 2 ∨ p = 3 := by omega
          rcases this with rfl | rfl | rfl
          · exact absurd (Or.inl h3) hx
          · exact absurd (Or.inr (Or.inr h3)) hx
          · exact absurd (Or.inr (Or.inl h3)) hx

theorem get_index_size_status (atoi : String → Int) (argv : List String) (e : Exit)
    (h : get_index_size atoi argv = .error e) : e = usage_exit ∨ e = dim_exit := by
  rcases argv_cases argv with hc | ⟨prog, x, rfl⟩ | ⟨prog, x, y, z, rfl⟩
  · rw [get_index_size_count atoi argv hc] at h
    cases h; exact Or.inl rfl
  · rw [get_index_size_one] at h
    split at h
    · cases h; exact Or.inr rfl
    · cases h
  · rw [get_index_size_three] at h
    split at h
    · cases h; exact Or.inr rfl
    · cases h

theorem get_index_size_pos (atoi : String → Int) (argv : List String) (l m n : Int)
    (h : get_index_size atoi argv = .ok (l, m, n)) : 0 < l ∧ 0 < m ∧ 0 < n := by
  rcases argv_cases argv with hc | ⟨prog, x, rfl⟩ | ⟨prog, x, y, z, rfl⟩
  · rw [get_index_size_count atoi argv hc] at h
    cases h
  · rw [get_index_size_one] at h
    split at h
    · cases h
    · cases h; omega
  · rw [get_index_size_three] at h
    split at h
    · cases h
    · cases h; omega

theorem main_of_exit {α : Type} [Zero α] [Add α] [Mul α] (env : Env α) (argv : List String)
    (e : Exit) (h : get_index_size env.atoi argv = .error e) :
    main env argv = { events := [.out e.out], result := .exit e.status } := by
  simp only [main, h]

/-- C2. When `get_index_size` returns the triple `(l, m, n)`, there are exactly
one or exactly three positional arguments; with one argument `x` the triple is
`(atoi x, atoi x, atoi x)`, with three arguments `x y z` it is
`(atoi x, atoi y, atoi z)`. -/
theorem get_index_size_dims (atoi : String → Int) (argv : List String) (l m n : Int)
    (h : get_index_size atoi argv = .ok (l, m, n)) :
    (argv.length = 2 ∨ argv.length = 4) ∧
    (∀ prog x, argv = [prog, x] → l = atoi x ∧ m = atoi x ∧ n = atoi x) ∧
    (∀ prog x y z, argv = [prog, x, y, z] → l = atoi x ∧ m = atoi y ∧ n = atoi z) := by
  refine ⟨?_, ?_, ?_⟩
  · by_contra hlen
    rw [get_index_size_count atoi argv (by omega)] at h
    cases h
  · rintro prog x rfl
    rw [get_index_size_one] at h
    split at h
    · cases h
    · cases h; exact ⟨rfl, rfl, rfl⟩
  · rintro prog x y z rfl
    rw [get_index_size_three] at h
    split at h
    · cases h
    · cases h; exact ⟨rfl, rfl, rfl⟩

/-- C3. `get_index_size` ends the program through `exit` exactly when the number
of positional arguments is neither 1 nor 3 or some positional argument parses
to a value `≤ 0`; the exit status is then `1`; whenever it returns, `l`, `m`
and `n` are positive; an `exit` of `get_index_size` ends `main` with that status
and no allocation among its events, in particular on a wrong argument count;
and the single argument `"0"`, parsed as `0`, is rejected. -/
theorem get_index_size_exit {α : Type} [Zero α] [Add α] [Mul α] (env : Env α)
    (argv : List String) :
    ((∃ e, get_index_size env.atoi argv = .error e) ↔
      ((argv.length ≠ 2 ∧ argv.length ≠ 4) ∨
        ∃ p, 1 ≤ p ∧ p < argv.length ∧ env.atoi (argv.getD p "") ≤ 0)) ∧
    (∀ e, get_index_size env.atoi argv = .error e → e.status = 1) ∧
    (∀ l m n, get_index_size env.atoi argv = .ok (l, m, n) → 0 < l ∧ 0 < m ∧ 0 < n) ∧
    (∀ e, get_index_size env.atoi argv = .error e →
      (main env argv).result = .exit 1 ∧ ∀ k, Event.alloc k ∉ (main env argv).events) ∧
    ((argv.length ≠ 2 ∧ argv.length ≠ 4) →
      (main env argv).result = .exit 1 ∧ ∀ k, Event.alloc k ∉ (main env argv).events) ∧
    (∀ prog, env.atoi "0" = 0 →
      get_index_size env.atoi [prog, "0"] = .error dim_exit ∧
      (main env [prog, "0"]).result = .exit 1) := by
  have hstatus : ∀ e, get_index_size env.atoi argv = .error e → e.status = 1 := by
    intro e he
    rcases get_index_size_status env.atoi argv e he with rfl | rfl <;> rfl
  have hmain : ∀ e, get_index_size env.atoi argv = .error e →
      (main env argv).result = .exit 1 ∧ ∀ k, Event.alloc k ∉ (main env argv).events := by
    intro e he
    rw [main_of_exit env argv e he, hstatus e he]
    exact ⟨rfl, fun k hk => by simp at hk⟩
  refine ⟨get_index_size_error_iff env.atoi argv, hstatus,
    get_index_size_pos env.atoi argv, hmain, ?_, ?_⟩
  · intro hc
    exact hmain _ (get_index_size_count env.atoi argv hc)
  · intro prog h0
    have h : get_index_size env.atoi [prog, "0"] = .error dim_exit := by
      rw [get_index_size_one, h0]; rfl
    exact ⟨h, by rw [main_of_exit env _ _ h]; rfl⟩

end cli

/-! ## Shapes -/

section shapes
variable {α : Type}

variable [Zero α] [Add α] [Mul α]

end shapes

/-! ## Concrete runs -/

section samples

/-- Instance of C1: a 2×3 by 3×2 product over the integers. -/
theorem mm_mult_computes_product_witness :
    ∃ r : Mem Int, mm_mult [1, 2, 3, 4, 5, 6] [1, 0, 0, 1, 1, 1] [9, 9, 9, 9] 2 3 2 = .ok r ∧
      r.c.length = 2 * 2 ∧
      ∀ i j, i < 2 → j < 2 →
        r.c[i * 2 + j]? = some ((List.range 3).foldl
          (fun acc k => acc + ([1, 2, 3, 4, 5, 6] : List Int).getD (i * 3 + k) 0
            * ([1, 0, 0, 1, 1, 1] : List Int).getD (k * 2 + j) 0) 0) ∧
        r.c[i * 2 + j]? = some
          (∑ k in Finset.range 3, ([1, 2, 3, 4, 5, 6] : List Int).getD (i * 3 + k) 0
            * ([1, 0, 0, 1, 1, 1] : List Int).getD (k * 2 + j) 0) :=
  mm_mult_computes_product 2 3 2 [1, 2, 3, 4, 5, 6] [1, 0, 0, 1, 1, 1] [9, 9, 9, 9]
    (by decide) (by decide) (by decide) rfl rfl rfl

/-- C7, as stated, fails: with every cell of `a` equal to `0` and an infinity in
`b`, the loop stores NaN, the value of `0 + 0 * inf + 0 * 1`. -/
theorem zero_times_infinity_not_zero :
    (∀ x ∈ ([0, 0] : List Fp), x = 0) ∧
    mm_mult ([0, 0] : List Fp) [Fp.inf false, 1] [0] 1 2 1
      = .ok { c := [Fp.nan], stores := [(0, Fp.nan)] } ∧
    Fp.nan ≠ (0 : Fp) :=
  ⟨by decide, rfl, by decide⟩

/-- Instance of C7 as amended: an all-zero 2×3 `a` against a 3×2 `b` of finite
`float` values. -/
theorem mm_mult_zero_witness :
    (((∀ x ∈ ([0, 0, 0, 0, 0, 0] : List Fp), x = 0) ∧
        ∀ y ∈ ([1, Fp.fin 5, Fp.fin (-2), 1, Fp.fin 8, 0] : List Fp), (0 : Fp) + 0 * y = 0) ∨
      ((∀ y ∈ ([1, Fp.fin 5, Fp.fin (-2), 1, Fp.fin 8, 0] : List Fp), y = 0) ∧
        ∀ x ∈ ([0, 0, 0, 0, 0, 0] : List Fp), (0 : Fp) + x * 0 = 0)) ∧
    ∃ r : Mem Fp,
      mm_mult [0, 0, 0, 0, 0, 0] [1, Fp.fin 5, Fp.fin (-2), 1, Fp.fin 8, 0]
        [Fp.nan, Fp.nan, Fp.nan, Fp.nan] 2 3 2 = .ok r ∧
      r.c.length = 2 * 2 ∧ ∀ x ∈ r.c, x = 0 :=
  ⟨Or.inl (by decide),
    mm_mult_zero 2 3 2 [0, 0, 0, 0, 0, 0] [1, Fp.fin 5, Fp.fin (-2), 1, Fp.fin 8, 0]
      [Fp.nan, Fp.nan, Fp.nan, Fp.nan]
      (by decide) (by decide) (by decide) rfl rfl rfl (Or.inl (by decide))⟩

/-- C5, as stated, fails: with an infinity in row 0 of `a`, the loop against
the 2×2 identity stores `inf` and NaN, not the row `inf`, `5` of `a`. -/
theorem identity_with_infinity_not_preserved :
    (∀ k j, k < 2 → j < 2 →
      ([1, 0, 0, 1] : List Fp)[k * 2 + j]? = some (if k = j then 1 else 0)) ∧
    mm_mult ([Fp.inf false, Fp.fin 5] : List Fp) [1, 0, 0, 1] [0, 0] 1 2 2
      = .ok { c := [Fp.inf false, Fp.nan],
              stores := [(0, Fp.inf false), (1, Fp.nan)] } ∧
    ([Fp.inf false, Fp.nan] : List Fp) ≠ [Fp.inf false, Fp.fin 5] :=
  ⟨by intro k j hk hj; interval_cases k <;> interval_cases j <;> rfl, rfl, by decide⟩

/-- Instance of C5 as amended: a 3×2 `a` of finite `float` values against the
2×2 identity. -/
theorem mm_mult_identity_witness :
    ((∀ x ∈ ([1, Fp.fin 2, Fp.fin (-3), Fp.fin 4, 0, Fp.fin 6] : List Fp),
        (0 : Fp) + x * 0 = 0) ∧
      (∀ x ∈ ([1, Fp.fin 2, Fp.fin (-3), Fp.fin 4, 0, Fp.fin 6] : List Fp),
        (0 : Fp) + x * 1 = x) ∧
      ∀ x ∈ ([1, Fp.fin 2, Fp.fin (-3), Fp.fin 4, 0, Fp.fin 6] : List Fp),
        ∀ y ∈ ([1, Fp.fin 2, Fp.fin (-3), Fp.fin 4, 0, Fp.fin 6] : List Fp), x + y * 0 = x) ∧
    ∃ r : Mem Fp,
      mm_mult [1, Fp.fin 2, Fp.fin (-3), Fp.fin 4, 0, Fp.fin 6] [1, 0, 0, 1]
        [Fp.nan, Fp.nan, Fp.nan, Fp.nan, Fp.nan, Fp.nan] 3 2 2 = .ok r ∧
      r.c = [1, Fp.fin 2, Fp.fin (-3), Fp.fin 4, 0, Fp.fin 6] :=
  ⟨by decide,
    mm_mult_identity 3 2 [1, Fp.fin 2, Fp.fin (-3), Fp.fin 4, 0, Fp.fin 6] [1, 0, 0, 1]
      [Fp.nan, Fp.nan, Fp.nan, Fp.nan, Fp.nan, Fp.nan]
      (by decide) (by decide) rfl rfl rfl
      (by intro k j hk hj; interval_cases k <;> interval_cases j <;> rfl)
      (by decide) (by decide) (by decide)⟩

/-- Instance of C8: the store log of a 2×3 by 3×2 product. -/
theorem mm_mult_stores_witness :
    ∃ r : Mem Int, mm_mult [1, 2, 3, 4, 5, 6] [1, 0, 0, 1, 1, 1] [9, 9, 9, 9] 2 3 2 = .ok r ∧
      r.stores.length = 2 * 2 ∧
      r.stores.map Prod.fst = List.range (2 * 2) ∧
      (r.stores.map Prod.fst).Nodup ∧
      (∀ o, o ∈ r.stores.map Prod.fst ↔ o < 2 * 2) ∧
      ∀ t, t < 2 * 2 → ∃ v,
        r.stores[t]? = some (t, v) ∧
        dot_loop [1, 2, 3, 4, 5, 6] [1, 0, 0, 1, 1, 1] 3 2 (t / 2) (t % 2) = .ok v ∧
        v = (List.range 3).foldl (fun acc k =>
          acc + ([1, 2, 3, 4, 5, 6] : List Int).getD (t / 2 * 3 + k) 0
            * ([1, 0, 0, 1, 1, 1] : List Int).getD (k * 2 + t % 2) 0) 0 ∧
        r.c[t]? = some v :=
  mm_mult_stores 2 3 2 [1, 2, 3, 4, 5, 6] [1, 0, 0, 1, 1, 1] [9, 9, 9, 9]
    (by decide) (by decide) (by decide) rfl rfl rfl

/-- Instance of C9: cell `(0,1)` of two runs that differ in row 1 of `a`, in
column 0 of `b` and in the initial `c`. -/
theorem mm_mult_cell_independent_witness :
    (∀ k, k < 3 → ([1, 2, 3, 4, 5, 6] : List Int)[0 * 3 + k]?
      = ([1, 2, 3, 7, 8, 9] : List Int)[0 * 3 + k]?) ∧
    (∀ k, k < 3 → ([1, 0, 0, 1, 1, 1] : List Int)[k * 2 + 1]?
      = ([5, 0, 6, 1, 7, 1] : List Int)[k * 2 + 1]?) ∧
    ∃ (r r' : Mem Int) (v : Int),
      mm_mult [1, 2, 3, 4, 5, 6] [1, 0, 0, 1, 1, 1] [9, 9, 9, 9] 2 3 2 = .ok r ∧
      mm_mult [1, 2, 3, 7, 8, 9] [5, 0, 6, 1, 7, 1] [0, 0, 0, 0] 2 3 2 = .ok r' ∧
      r.c[0 * 2 + 1]? = some v ∧ r'.c[0 * 2 + 1]? = some v :=
  ⟨by decide, by decide,
    mm_mult_cell_independent 2 3 2 0 1 [1, 2, 3, 4, 5, 6] [1, 0, 0, 1, 1, 1] [9, 9, 9, 9]
      [1, 2, 3, 7, 8, 9] [5, 0, 6, 1, 7, 1] [0, 0, 0, 0]
      (by decide) (by decide) (by decide) (by decide) (by decide) rfl rfl rfl rfl rfl rfl
      (by decide) (by decide)⟩

/-- Instance of C6: shapes 2×3, 3×2 and 2×4. -/
theorem mm_mult_assoc_witness :
    ∃ (ab ab_c bc a_bc : Mem Int),
      mm_mult [1, 2, 3, 4, 5, 6] [0, 1, 1, 0, 2, 3] [9, 9, 9, 9] 2 3 2 = .ok ab ∧
      mm_mult ab.c [2, 1, 0, 1, 3, 0, 1, 1] [9, 9, 9, 9, 9, 9, 9, 9] 2 2 4 = .ok ab_c ∧
      mm_mult [0, 1, 1, 0, 2, 3] [2, 1, 0, 1, 3, 0, 1, 1] (List.replicate 12 9) 3 2 4 = .ok bc ∧
      mm_mult [1, 2, 3, 4, 5, 6] bc.c [0, 0, 0, 0, 0, 0, 0, 0] 2 3 4 = .ok a_bc ∧
      ab_c.c.length = 2 * 4 ∧ ab_c.c = a_bc.c :=
  mm_mult_assoc 2 3 2 4 [1, 2, 3, 4, 5, 6] [0, 1, 1, 0, 2, 3] [2, 1, 0, 1, 3, 0, 1, 1]
    [9, 9, 9, 9] [9, 9, 9, 9, 9, 9, 9, 9] (List.replicate 12 9) [0, 0, 0, 0, 0, 0, 0, 0]
    (by decide) (by decide) (by decide) (by decide) rfl rfl rfl rfl rfl rfl rfl

/-- Instance of C10: dimensions `(2, 3, 2)`. -/
theorem mm_mult_index_safe_witness :
    (2 * 3 ≤ INT_MAX ∧ 3 * 2 ≤ INT_MAX ∧ 2 * 2 ≤ INT_MAX) ∧
    ((∀ i k, i < 2 → k < 3 → i * 3 + k < 2 * 3 ∧
        ∃ v, A_int ([1, 2, 3, 4, 5, 6] : List Int) 3 i k = .ok v) ∧
      (∀ k j, k < 3 → j < 2 → k * 2 + j < 3 * 2 ∧
        ∃ v, B_int ([1, 0, 0, 1, 1, 1] : List Int) 2 k j = .ok v) ∧
      (∀ i j, i < 2 → j < 2 → i * 2 + j < 2 * 2 ∧
        ∀ (s : Mem Int) v, s.c.length = 2 * 2 → ∃ s', C_int s 2 i j v = .ok s') ∧
      ∃ r : Mem Int,
        mm_mult_int [1, 2, 3, 4, 5, 6] [1, 0, 0, 1, 1, 1] [9, 9, 9, 9] 2 3 2 = .ok r ∧
        mm_mult [1, 2, 3, 4, 5, 6] [1, 0, 0, 1, 1, 1] [9, 9, 9, 9] 2 3 2 = .ok r) :=
  ⟨by decide,
    mm_mult_index_safe 2 3 2 [1, 2, 3, 4, 5, 6] [1, 0, 0, 1, 1, 1] [9, 9, 9, 9]
      (by decide) (by decide) (by decide) (by decide) (by decide) (by decide) rfl rfl rfl⟩

/-- Instance of C2: the three arguments `2 3 4`. -/
theorem get_index_size_dims_witness :
    get_index_size atoi_sample ["mm_mult_serial", "2", "3", "4"] = .ok (2, 3, 4) ∧
    ((["mm_mult_serial", "2", "3", "4"].length = 2 ∨
        ["mm_mult_serial", "2", "3", "4"].length = 4) ∧
      (∀ prog x, ["mm_mult_serial", "2", "3", "4"] = [prog, x] →
        (2 : Int) = atoi_sample x ∧ (3 : Int) = atoi_sample x ∧ (4 : Int) = atoi_sample x) ∧
      (∀ prog x y z, ["mm_mult_serial", "2", "3", "4"] = [prog, x, y, z] →
        (2 : Int) = atoi_sample x ∧ (3 : Int) = atoi_sample y ∧ (4 : Int) = atoi_sample z)) :=
  ⟨rfl, get_index_size_dims atoi_sample ["mm_mult_serial", "2", "3", "4"] 2 3 4 rfl⟩

/-- Instance of C3: two positional arguments end `main` with status `1` and
without any allocation. -/
theorem get_index_size_exit_witness :
    (main env_sample ["mm_mult_serial", "2", "3"]).result = .exit 1 ∧
      ∀ k, Event.alloc k ∉ (main env_sample ["mm_mult_serial", "2", "3"]).events :=
  (get_index_size_exit env_sample ["mm_mult_serial", "2", "3"]).2.2.2.2.1 (by decide)

end samples

end MmMult
